import Mathlib

/-!
Verification of the PGE Code Architect generation pipeline
(`code_architect_app.py`).

Python strings are modelled as `List Char`.  The external Gemini service is
modelled as an oracle: for the retry loop inside `make_gemini_request` the
oracle is the list of per-attempt outcomes; for the pipeline stages the oracle
is a function `Nat → List Char` giving the final text returned by the `i`-th
`make_gemini_request` invocation issued by the generation stage (retries are
internal to one invocation and hence to one oracle index).
-/

/-- Python whitespace characters recognised by `str.strip()` (ASCII part:
space, tab, newline, carriage return, vertical tab, form feed). -/
def isPySpace (c : Char) : Bool :=
  c = ' ' || c = '\t' || c = '\n' || c = '\r' || c = Char.ofNat 11 || c = Char.ofNat 12

/-- Python `s.strip()`: drop leading and trailing whitespace. -/
def pyStrip (s : List Char) : List Char :=
  ((s.dropWhile isPySpace).reverse.dropWhile isPySpace).reverse

/-- Fuel-driven worker for `pyReplaceDel`.  The fuel starts at the length of
the string, which strictly bounds the number of steps. -/
def pyReplaceDelAux (pat : List Char) : Nat → List Char → List Char
  | _, [] => []
  | 0, s => s
  | fuel + 1, c :: cs =>
      if pat.isPrefixOf (c :: cs) && !pat.isEmpty then
        pyReplaceDelAux pat fuel (cs.drop (pat.length - 1))
      else
        c :: pyReplaceDelAux pat fuel cs

/-- Python `s.replace(pat, "")`: delete every occurrence of `pat`, scanning
left to right, continuing after each deleted occurrence (CPython semantics of
`str.replace` with an empty replacement). -/
def pyReplaceDel (pat s : List Char) : List Char :=
  pyReplaceDelAux pat s.length s

/-- Python `s.upper()` (ASCII letters, as used on section names). -/
def pyUpper (s : List Char) : List Char :=
  s.map Char.toUpper

/-- Python `s.splitlines()` restricted to the line breaks that occur in this
program: `\n`, `\r` and `\r\n`.  A trailing line break produces no trailing
empty line, exactly as in CPython. -/
def pySplitlines : List Char → List (List Char)
  | [] => []
  | c :: cs =>
      if c = '\n' then [] :: pySplitlines cs
      else if c = '\r' then
        match cs with
        | [] => [[]]
        | d :: rest =>
            if d = '\n' then [] :: pySplitlines rest
            else [] :: pySplitlines (d :: rest)
      else
        match pySplitlines cs with
        | [] => [[c]]
        | l :: ls => (c :: l) :: ls

/-- The markdown fence `"```"`. -/
def fence3 : List Char := "```".data

/-- The backtick character (code point 96), the character the fences are made
of. -/
def bqChar : Char := Char.ofNat 96

/-- The markdown fence `"```python"`. -/
def fencePy : List Char := "```python".data

/-- The markdown fence `"```json"`. -/
def fenceJs : List Char := "```json".data

/-- The cleaning `response.strip().replace(pat, "").replace("```", "").strip()` — the
code-fence stripping used at lines 89, 124 and 151 of the source, generic in
the language-specific fence `pat`. -/
def cleanFences (pat s : List Char) : List Char :=
  pyStrip (pyReplaceDel fence3 (pyReplaceDel pat (pyStrip s)))

/-- Fence stripping with `"```python"` (generation loop, line 124; refiner,
line 151). -/
def cleanPython (s : List Char) : List Char := cleanFences fencePy s

/-- Fence stripping with `"```json"` (planner, line 89). -/
def cleanJsonText (s : List Char) : List Char := cleanFences fenceJs s

/-- The in-band failure marker `"Error:"`. -/
def errMark : List Char := "Error:".data

/-- Python `text.startswith("Error:")` — how every caller classifies a
`make_gemini_request` result as a failure. -/
def isErr (s : List Char) : Bool := errMark.isPrefixOf s

/-- Outcome of one HTTP attempt inside `make_gemini_request`:
a `requests` exception (transport / non-2xx via `raise_for_status`), a
`KeyError`/`IndexError` while digging into the response envelope, or a
successfully extracted text payload (possibly empty). -/
inductive AttemptOutcome where
  | transportError (e : List Char)
  | envelopeError (e : List Char)
  | payload (text : List Char)

/-- Model of `make_gemini_request` (lines 24–66), over the list of per-attempt
outcomes; the list length is the `retries` parameter.  On an empty payload it
returns `"Error: Empty response from API."` at once; on a transport error it
retries while `attempt < retries - 1` (i.e. while further attempts remain) and
otherwise returns the error message with the `"Error: "` tag; on an envelope
error it returns
`"Error: Could not parse API response."`; if the loop is never entered
(`retries = 0`) it returns `"Error: API request failed after all retries."`. -/
def makeGeminiRequest : List AttemptOutcome → List Char
  | [] => "Error: API request failed after all retries.".data
  | AttemptOutcome.payload text :: _ =>
      if text.isEmpty then "Error: Empty response from API.".data else text
  | AttemptOutcome.envelopeError _ :: _ =>
      "Error: Could not parse API response.".data
  | AttemptOutcome.transportError e :: rest =>
      if rest.isEmpty then "Error: ".data ++ e else makeGeminiRequest rest

/-- Model of `summarize_code_block` (lines 69–76).  `response` is the text returned by
the `make_gemini_request` call inside it.  On a failure response it falls back
to the first line of the block, a newline, the first 250 characters of the
block and a trailing ellipsis; the indexing
`[0]` raises an uncaught `IndexError` (modelled as `none`) when the block is
the empty string. -/
def summarize_code_block (response block : List Char) : Option (List Char) :=
  if isErr response then
    match pySplitlines block with
    | [] => none
    | l :: _ => some (l ++ ("\n".data) ++ block.take 250 ++ ("...\n\n".data))
  else some response

/-- JSON values, as produced by `json.loads`. -/
inductive JsonVal where
  | null
  | bool (b : Bool)
  | num (n : Int)
  | str (s : List Char)
  | arr (elems : List JsonVal)
  | obj (members : List (List Char × JsonVal))

/-- Python `dict.get key` on the member list of a JSON object. -/
def jsonLookup (members : List (List Char × JsonVal)) (key : List Char) : Option JsonVal :=
  match members with
  | [] => none
  | (k, v) :: rest => if k = key then some v else jsonLookup rest key

/-- Result of `pge_step_1_planning`: `failure` models `return None`; `plan p`
models returning `plan.get("plan", [])`; `attributeError` models the uncaught
`AttributeError` raised by calling `.get` on a parsed value that is not a
dict. -/
inductive PlannerResult where
  | failure
  | plan (p : JsonVal)
  | attributeError

/-- Model of `pge_step_1_planning` (lines 79–98).  `loads` models the external
`json.loads`: it returns `none` exactly when the library raises
`JSONDecodeError` on its argument.  The function fails when the service
response is an `"Error:"` string or when the cleaned response does not parse;
otherwise it returns `plan.get("plan", [])` — with no validation of the
member's structure — or crashes if the parsed value is not an object. -/
def pge_step_1_planning (loads : List Char → Option JsonVal)
    (response_text : List Char) : PlannerResult :=
  if isErr response_text then PlannerResult.failure
  else
    match loads (cleanJsonText response_text) with
    | none => PlannerResult.failure
    | some (JsonVal.obj members) =>
        PlannerResult.plan ((jsonLookup members ("plan".data)).getD (JsonVal.arr []))
    | some _ => PlannerResult.attributeError

/-- One step of the plan: the `section_name` and `description` fields of one
element of the parsed plan list. -/
structure PlanStep where
  section_name : List Char
  description : List Char
deriving DecidableEq

/-- The mutable state of the generation loop (lines 103–105), instrumented
with two counters: `calls` counts every `make_gemini_request` invocation made
so far by the loop (it is also the oracle index of the next invocation), and
`scalls` counts those made by `summarize_code_block`. -/
structure LoopState where
  long_term_memory : List Char
  short_term_memory_blocks : List (List Char)
  all_code_blocks : List (List Char)
  calls : Nat
  scalls : Nat
deriving DecidableEq

/-- State of the loop before the first iteration. -/
def initLoopState : LoopState := ⟨[], [], [], 0, 0⟩

/-- Result of the generation loop: normal termination with a final state,
`return None` after a failed section generation (which also sets
`st.session_state.generation_failed`), or an uncaught exception. -/
inductive LoopResult where
  | ok (st : LoopState)
  | genFailure
  | crash
deriving DecidableEq

/-- The block `full_block` (line 125):
`f"# --- SECTION: {section_name.upper()} ---\n{clean_code}\n"`. -/
def fullBlock (name clean_code : List Char) : List Char :=
  ("# --- SECTION: ".data) ++ pyUpper name ++ (" ---\n".data) ++ clean_code ++ ("\n".data)

/-- The loop body of `pge_step_2_generation_loop` (lines 108–133), iterated
over the remaining plan.  Each iteration: generate the section
(one oracle call); abort with `genFailure` if the result is an `"Error:"`
string; otherwise strip fences, build the block, append it to the script and
to short-term memory; if short-term memory now exceeds the window `W`, pop its
oldest block and summarize it (one more oracle call), appending the summary as a bulleted
line to long-term memory. -/
def genLoopGo (oracle : Nat → List Char) (W : Nat) :
    List PlanStep → LoopState → LoopResult
  | [], st => LoopResult.ok st
  | step :: rest, st =>
      let generated_code := oracle st.calls
      if isErr generated_code then LoopResult.genFailure
      else
        let clean_code := cleanPython generated_code
        let full := fullBlock step.section_name clean_code
        let all := st.all_code_blocks ++ [full]
        let short := st.short_term_memory_blocks ++ [full]
        if W < short.length then
          match short with
          | [] => LoopResult.crash
          | popped :: stail =>
            match summarize_code_block (oracle (st.calls + 1)) popped with
            | none => LoopResult.crash
            | some summary =>
                genLoopGo oracle W rest
                  ⟨st.long_term_memory ++ ("- ".data) ++ summary ++ ("\n".data),
                   stail, all, st.calls + 2, st.scalls + 1⟩
        else
          genLoopGo oracle W rest
            ⟨st.long_term_memory, short, all, st.calls + 1, st.scalls⟩

/-- Model of `pge_step_2_generation_loop` (lines 100–137): run the loop from the empty
memories and, on normal termination, return `"\n".join(all_code_blocks)`;
`none` models both `return None` and an uncaught exception. -/
def pge_step_2_generation_loop (oracle : Nat → List Char) (W : Nat)
    (plan : List PlanStep) : Option (List Char) :=
  match genLoopGo oracle W plan initLoopState with
  | LoopResult.ok st => some (List.intercalate ("\n".data) st.all_code_blocks)
  | _ => none

/-- Total number of `make_gemini_request` invocations recorded in a normally
terminated loop run (`0` for the other outcomes). -/
def LoopResult.totalCalls : LoopResult → Nat
  | LoopResult.ok st => st.calls
  | _ => 0

/-- Number of summarization invocations recorded in a normally terminated
loop run (`0` for the other outcomes). -/
def LoopResult.summaryCalls : LoopResult → Nat
  | LoopResult.ok st => st.scalls
  | _ => 0

/-- The oracle indices of the section-generation service calls the loop
issues, given the current call counter `c`, the current short-term memory
length `L`, and the number `n` of remaining plan steps.  Each iteration
advances the counter by `2` when it overflows the window (section call plus
summarization call) and by `1` otherwise. -/
def genCallIdxs (W : Nat) : Nat → Nat → Nat → List Nat
  | _, _, 0 => []
  | c, L, n + 1 =>
      c :: genCallIdxs W (if W < L + 1 then c + 2 else c + 1)
            (if W < L + 1 then L else L + 1) n

/-- The code block the loop builds for plan step `step` out of the response of
service call `i`. -/
def blockOf (oracle : Nat → List Char) (step : PlanStep) (i : Nat) : List Char :=
  fullBlock step.section_name (cleanPython (oracle i))

/-- Model of `pge_step_3_refinement` (lines 139–153).  `response` is the text returned
by the `make_gemini_request` call inside it; on a failure response the
unrefined script is returned unchanged, otherwise the fence-stripped
response. -/
def pge_step_3_refinement (response generated_code : List Char) : List Char :=
  if isErr response then generated_code else cleanPython response

/-- The two session-state fields the controller writes for the core result
(`final_code`, `generation_failed`). -/
structure SessionState where
  final_code : List Char
  generation_failed : Bool
deriving DecidableEq

/-- The main process controller (lines 189–199), from the point where the
plan is available: `None` and the empty plan are falsy, so generation is
skipped; a loop failure leaves `final_code` empty with the failure flag set;
a crash propagates (modelled as `none`); otherwise the refinement pass runs on
the assembled script (consuming the next oracle index) and its result is
stored in `final_code`. -/
def mainProcess (oracle : Nat → List Char) (W : Nat)
    (plan : Option (List PlanStep)) : Option SessionState :=
  match plan with
  | none => some ⟨[], false⟩
  | some steps =>
      if steps.isEmpty then some ⟨[], false⟩
      else
        match genLoopGo oracle W steps initLoopState with
        | LoopResult.crash => none
        | LoopResult.genFailure => some ⟨[], true⟩
        | LoopResult.ok st =>
            let generated_code := List.intercalate ("\n".data) st.all_code_blocks
            if generated_code.isEmpty then some ⟨[], false⟩
            else some ⟨pge_step_3_refinement (oracle st.calls) generated_code, false⟩

/-- A service oracle that always answers `"x"`. -/
def demoOracleOk : Nat → List Char := fun _ => ("x".data)

/-- A service oracle that always answers with a failure string. -/
def demoOracleErr : Nat → List Char := fun _ => ("Error: boom".data)

/-- A service oracle whose third answer (the refinement call after a 2-step
plan with window 2) is a failure string. -/
def demoOracleRefineErr : Nat → List Char :=
  fun n => if n = 2 then ("Error: boom".data) else ("x".data)

/-- A one-step demonstration plan. -/
def demoPlan1 : List PlanStep := [⟨("A".data), ("d".data)⟩]

/-- A two-step demonstration plan. -/
def demoPlan2 : List PlanStep := List.replicate 2 ⟨("A".data), ("d".data)⟩

/-- A five-step demonstration plan. -/
def demoPlan5 : List PlanStep := List.replicate 5 ⟨("A".data), ("d".data)⟩

/-- The script produced for `demoPlan2` under `demoOracleRefineErr`. -/
def demoScript : List Char :=
  (pge_step_2_generation_loop demoOracleRefineErr 2 demoPlan2).getD []

/-- A JSON object that satisfies the plan exchange format in no respect: its
only member is `"notplan"`. -/
def demoBadJson : JsonVal := JsonVal.obj [(("notplan".data), JsonVal.num 1)]

lemma genLoopGo_nil (oracle : Nat → List Char) (W : Nat) (st : LoopState) :
    genLoopGo oracle W [] st = LoopResult.ok st := rfl

lemma genLoopGo_cons_err (oracle : Nat → List Char) (W : Nat) (step : PlanStep)
    (rest : List PlanStep) (st : LoopState) (h : isErr (oracle st.calls) = true) :
    genLoopGo oracle W (step :: rest) st = LoopResult.genFailure := by
  simp [genLoopGo, h]

lemma genLoopGo_cons_over (oracle : Nat → List Char) (W : Nat) (step : PlanStep)
    (rest : List PlanStep) (st : LoopState) (popped summary : List Char)
    (stail : List (List Char))
    (h : isErr (oracle st.calls) = false)
    (hov : W < st.short_term_memory_blocks.length + 1)
    (hdec : st.short_term_memory_blocks
        ++ [fullBlock step.section_name (cleanPython (oracle st.calls))] = popped :: stail)
    (hsum : summarize_code_block (oracle (st.calls + 1)) popped = some summary) :
    genLoopGo oracle W (step :: rest) st =
      genLoopGo oracle W rest
        ⟨st.long_term_memory ++ ("- ".data) ++ summary ++ ("\n".data), stail,
         st.all_code_blocks ++ [fullBlock step.section_name (cleanPython (oracle st.calls))],
         st.calls + 2, st.scalls + 1⟩ := by
  simp only [genLoopGo, h, Bool.false_eq_true, if_false, hdec, List.length_cons]
  have hlen : stail.length = st.short_term_memory_blocks.length := by
    have := congrArg List.length hdec
    simp at this; omega
  rw [if_pos (by omega), hsum]

lemma genLoopGo_cons_over_crash (oracle : Nat → List Char) (W : Nat) (step : PlanStep)
    (rest : List PlanStep) (st : LoopState) (popped : List Char)
    (stail : List (List Char))
    (h : isErr (oracle st.calls) = false)
    (hov : W < st.short_term_memory_blocks.length + 1)
    (hdec : st.short_term_memory_blocks
        ++ [fullBlock step.section_name (cleanPython (oracle st.calls))] = popped :: stail)
    (hsum : summarize_code_block (oracle (st.calls + 1)) popped = none) :
    genLoopGo oracle W (step :: rest) st = LoopResult.crash := by
  simp only [genLoopGo, h, Bool.false_eq_true, if_false, hdec, List.length_cons]
  have hlen : stail.length = st.short_term_memory_blocks.length := by
    have := congrArg List.length hdec
    simp at this; omega
  rw [if_pos (by omega), hsum]

lemma genLoopGo_cons_no (oracle : Nat → List Char) (W : Nat) (step : PlanStep)
    (rest : List PlanStep) (st : LoopState)
    (h : isErr (oracle st.calls) = false)
    (hov : ¬ W < st.short_term_memory_blocks.length + 1) :
    genLoopGo oracle W (step :: rest) st =
      genLoopGo oracle W rest
        ⟨st.long_term_memory,
         st.short_term_memory_blocks
            ++ [fullBlock step.section_name (cleanPython (oracle st.calls))],
         st.all_code_blocks ++ [fullBlock step.section_name (cleanPython (oracle st.calls))],
         st.calls + 1, st.scalls⟩ := by
  simp only [genLoopGo, h, Bool.false_eq_true, if_false, List.length_append, List.length_cons]
  rw [if_neg (by simpa using hov)]

lemma genLoopGo_counts (oracle : Nat → List Char) (W : Nat) :
    ∀ (plan : List PlanStep) (st st' : LoopState),
      genLoopGo oracle W plan st = LoopResult.ok st' →
      st'.calls = st.calls + plan.length
          + ((st.short_term_memory_blocks.length + plan.length - W)
              - (st.short_term_memory_blocks.length - W)) ∧
      st'.scalls = st.scalls
          + ((st.short_term_memory_blocks.length + plan.length - W)
              - (st.short_term_memory_blocks.length - W)) ∧
      st'.short_term_memory_blocks.length
          = max st.short_term_memory_blocks.length
              (min (st.short_term_memory_blocks.length + plan.length) W) := by
  intro plan
  induction plan with
  | nil =>
      intro st st' h
      rw [genLoopGo_nil] at h
      cases h
      simp only [List.length_nil]
      refine ⟨by omega, by omega, by omega⟩
  | cons step rest ih =>
      intro st st' h
      by_cases herr : isErr (oracle st.calls) = true
      · rw [genLoopGo_cons_err oracle W step rest st herr] at h
        cases h
      · have herr' : isErr (oracle st.calls) = false := by
          cases hb : isErr (oracle st.calls)
          · rfl
          · exact absurd hb herr
        by_cases hov : W < st.short_term_memory_blocks.length + 1
        · obtain ⟨popped, stail, hdec⟩ :
              ∃ p t, st.short_term_memory_blocks
                ++ [fullBlock step.section_name (cleanPython (oracle st.calls))] = p :: t := by
            cases st.short_term_memory_blocks with
            | nil => exact ⟨_, _, rfl⟩
            | cons b bs => exact ⟨_, _, rfl⟩
          have hlen : stail.length = st.short_term_memory_blocks.length := by
            have := congrArg List.length hdec
            simp at this; omega
          cases hsum : summarize_code_block (oracle (st.calls + 1)) popped with
          | none =>
              rw [genLoopGo_cons_over_crash oracle W step rest st popped stail
                    herr' hov hdec hsum] at h
              cases h
          | some summary =>
              rw [genLoopGo_cons_over oracle W step rest st popped summary stail
                    herr' hov hdec hsum] at h
              have hc := ih _ _ h
              simp only [List.length_cons, List.length_append, List.length_nil]
                at hc hlen ⊢
              omega
        · rw [genLoopGo_cons_no oracle W step rest st herr' hov] at h
          have hc := ih _ _ h
          simp only [List.length_append, List.length_cons, List.length_nil] at hc ⊢
          omega

lemma genLoopGo_blocks (oracle : Nat → List Char) (W : Nat) :
    ∀ (plan : List PlanStep) (st st' : LoopState),
      genLoopGo oracle W plan st = LoopResult.ok st' →
      st'.all_code_blocks = st.all_code_blocks
        ++ List.zipWith (blockOf oracle) plan
             (genCallIdxs W st.calls st.short_term_memory_blocks.length plan.length) := by
  intro plan
  induction plan with
  | nil =>
      intro st st' h
      rw [genLoopGo_nil] at h
      cases h
      simp [genCallIdxs]
  | cons step rest ih =>
      intro st st' h
      by_cases herr : isErr (oracle st.calls) = true
      · rw [genLoopGo_cons_err oracle W step rest st herr] at h
        cases h
      · have herr' : isErr (oracle st.calls) = false := by
          cases hb : isErr (oracle st.calls)
          · rfl
          · exact absurd hb herr
        by_cases hov : W < st.short_term_memory_blocks.length + 1
        · obtain ⟨popped, stail, hdec⟩ :
              ∃ p t, st.short_term_memory_blocks
                ++ [fullBlock step.section_name (cleanPython (oracle st.calls))] = p :: t := by
            cases st.short_term_memory_blocks with
            | nil => exact ⟨_, _, rfl⟩
            | cons b bs => exact ⟨_, _, rfl⟩
          have hlen : stail.length = st.short_term_memory_blocks.length := by
            have := congrArg List.length hdec
            simp at this; omega
          cases hsum : summarize_code_block (oracle (st.calls + 1)) popped with
          | none =>
              rw [genLoopGo_cons_over_crash oracle W step rest st popped stail
                    herr' hov hdec hsum] at h
              cases h
          | some summary =>
              rw [genLoopGo_cons_over oracle W step rest st popped summary stail
                    herr' hov hdec hsum] at h
              have hc := ih _ _ h
              simp only [List.length_cons, genCallIdxs, if_pos hov, hlen] at hc ⊢
              rw [hc]
              simp [blockOf, List.append_assoc]
        · rw [genLoopGo_cons_no oracle W step rest st herr' hov] at h
          have hc := ih _ _ h
          simp only [List.length_cons, List.length_append, List.length_nil,
            genCallIdxs, if_neg hov] at hc ⊢
          rw [hc]
          simp [blockOf, List.append_assoc]

/-- C4: memory invariant of the generation loop: for every plan, window size
`W` and start state whose short-term memory is within the window, any state in
which the loop body terminates normally still has `short_term` length at most
`W`; instantiating the start state with any intermediate state, this covers
every completed prefix of the plan. -/
theorem generation_loop_memory_invariant (oracle : Nat → List Char) (W : Nat)
    (plan : List PlanStep) (st st' : LoopState)
    (hlen : st.short_term_memory_blocks.length ≤ W)
    (h : genLoopGo oracle W plan st = LoopResult.ok st') :
    st'.short_term_memory_blocks.length ≤ W := by
  have hc := (genLoopGo_counts oracle W plan st st' h).2.2
  omega

/-- C4 witness: a concrete one-step run with window 2. -/
theorem generation_loop_memory_invariant_witness :
    initLoopState.short_term_memory_blocks.length ≤ 2 ∧
    genLoopGo demoOracleOk 2 demoPlan1 initLoopState
      = LoopResult.ok ⟨[], [("# --- SECTION: A ---\nx\n".data)],
          [("# --- SECTION: A ---\nx\n".data)], 1, 0⟩ ∧
    (⟨[], [("# --- SECTION: A ---\nx\n".data)],
          [("# --- SECTION: A ---\nx\n".data)], 1, 0⟩ : LoopState).short_term_memory_blocks.length ≤ 2 :=
  ⟨by decide, by decide,
   generation_loop_memory_invariant demoOracleOk 2 demoPlan1 initLoopState _
     (by decide) (by decide)⟩

/-- C1 counterexample: for the five-step plan with window `W = 2` and a
service that always succeeds, the loop makes `8` service calls in total:
`5` section-generation calls plus `3` summarization calls, and `3` exceeds
the claimed bound `⌊N/W⌋ = ⌊5/2⌋ = 2` (equivalently, `8 > 5 + 5/2 = 7`). -/
theorem generation_loop_call_count_counterexample :
    (genLoopGo demoOracleOk 2 demoPlan5 initLoopState).totalCalls = 8 ∧
    (genLoopGo demoOracleOk 2 demoPlan5 initLoopState).summaryCalls = 3 ∧
    demoPlan5.length + demoPlan5.length / 2
      < (genLoopGo demoOracleOk 2 demoPlan5 initLoopState).totalCalls ∧
    demoPlan5.length / 2
      < (genLoopGo demoOracleOk 2 demoPlan5 initLoopState).summaryCalls := by
  decide

/-- C1 (amended): when the generation loop terminates normally it has made
exactly `N` section-generation service calls plus exactly `max (N - W) 0`
summarization calls, `N` the plan length — the extra calls are bounded by
`N - W`, not by `⌊N/W⌋`. -/
theorem generation_loop_call_count (oracle : Nat → List Char) (W : Nat)
    (plan : List PlanStep)
    (h : (pge_step_2_generation_loop oracle W plan).isSome = true) :
    (genLoopGo oracle W plan initLoopState).totalCalls
        = plan.length + (plan.length - W) ∧
    (genLoopGo oracle W plan initLoopState).summaryCalls = plan.length - W := by
  cases hg : genLoopGo oracle W plan initLoopState with
  | ok st =>
      have hc := genLoopGo_counts oracle W plan initLoopState st hg
      simp only [initLoopState, List.length_nil] at hc
      simp only [LoopResult.totalCalls, LoopResult.summaryCalls]
      omega
  | genFailure => simp [pge_step_2_generation_loop, hg] at h
  | crash => simp [pge_step_2_generation_loop, hg] at h

/-- C1 witness: the amended count at a concrete successful five-step run. -/
theorem generation_loop_call_count_witness :
    (pge_step_2_generation_loop demoOracleOk 2 demoPlan5).isSome = true ∧
    ((genLoopGo demoOracleOk 2 demoPlan5 initLoopState).totalCalls
        = demoPlan5.length + (demoPlan5.length - 2) ∧
     (genLoopGo demoOracleOk 2 demoPlan5 initLoopState).summaryCalls
        = demoPlan5.length - 2) :=
  ⟨by decide, generation_loop_call_count demoOracleOk 2 demoPlan5 (by decide)⟩

/-- C8: whenever the generation loop succeeds, the returned script is the
blank-line-separated concatenation of exactly one code block per plan step,
zipped in plan order with the strictly increasing sequence of service-call
indices — so generation order, plan order and assembly order coincide. -/
theorem final_script_plan_order (oracle : Nat → List Char) (W : Nat)
    (plan : List PlanStep)
    (h : (pge_step_2_generation_loop oracle W plan).isSome = true) :
    pge_step_2_generation_loop oracle W plan
      = some (List.intercalate ("\n".data)
          (List.zipWith (blockOf oracle) plan (genCallIdxs W 0 0 plan.length))) := by
  cases hg : genLoopGo oracle W plan initLoopState with
  | ok st =>
      have hb := genLoopGo_blocks oracle W plan initLoopState st hg
      simp only [initLoopState, List.length_nil, List.nil_append] at hb
      simp [pge_step_2_generation_loop, hg, hb]
  | genFailure => simp [pge_step_2_generation_loop, hg] at h
  | crash => simp [pge_step_2_generation_loop, hg] at h

/-- C8 witness: the script of a concrete two-step run equals the zipped
assembly. -/
theorem final_script_plan_order_witness :
    (pge_step_2_generation_loop demoOracleOk 2 demoPlan2).isSome = true ∧
    pge_step_2_generation_loop demoOracleOk 2 demoPlan2
      = some (List.intercalate ("\n".data)
          (List.zipWith (blockOf demoOracleOk) demoPlan2
            (genCallIdxs 2 0 0 demoPlan2.length))) :=
  ⟨by decide, final_script_plan_order demoOracleOk 2 demoPlan2 (by decide)⟩

lemma fullBlock_ne_nil (name clean_code : List Char) : fullBlock name clean_code ≠ [] := by
  have h1 : ("# --- SECTION: ".data) = '#' :: (" --- SECTION: ".data) := rfl
  simp [fullBlock, h1]

lemma pySplitlines_ne_nil (c : Char) (cs : List Char) : pySplitlines (c :: cs) ≠ [] := by
  rw [pySplitlines.eq_def]
  simp only []
  by_cases h1 : c = '\n'
  · simp [h1]
  · simp only [h1, if_false]
    by_cases h2 : c = '\r'
    · simp only [h2, if_true]
      cases cs with
      | nil => simp
      | cons d rest =>
          by_cases h3 : d = '\n' <;> simp [h3]
    · simp only [h2, if_false]
      cases hp : pySplitlines cs <;> simp

lemma summarize_code_block_isSome (response block : List Char) (h : block ≠ []) :
    (summarize_code_block response block).isSome = true := by
  unfold summarize_code_block
  by_cases he : isErr response
  · simp only [he, if_true]
    cases block with
    | nil => exact absurd rfl h
    | cons c cs =>
        cases hp : pySplitlines (c :: cs) with
        | nil => exact absurd hp (pySplitlines_ne_nil c cs)
        | cons l ls => simp
  · simp [he]

lemma genLoopGo_ne_crash (oracle : Nat → List Char) (W : Nat) :
    ∀ (plan : List PlanStep) (st : LoopState),
      (∀ b ∈ st.short_term_memory_blocks, b ≠ []) →
      genLoopGo oracle W plan st ≠ LoopResult.crash := by
  intro plan
  induction plan with
  | nil => intro st _; rw [genLoopGo_nil]; simp
  | cons step rest ih =>
      intro st hb
      by_cases herr : isErr (oracle st.calls) = true
      · rw [genLoopGo_cons_err oracle W step rest st herr]; simp
      · have herr' : isErr (oracle st.calls) = false := by
          cases hx : isErr (oracle st.calls)
          · rfl
          · exact absurd hx herr
        have hall : ∀ b ∈ st.short_term_memory_blocks
            ++ [fullBlock step.section_name (cleanPython (oracle st.calls))], b ≠ [] := by
          intro b hmem
          rcases List.mem_append.mp hmem with hmem | hmem
          · exact hb b hmem
          · simp at hmem
            subst hmem
            exact fullBlock_ne_nil _ _
        by_cases hov : W < st.short_term_memory_blocks.length + 1
        · obtain ⟨popped, stail, hdec⟩ :
              ∃ p t, st.short_term_memory_blocks
                ++ [fullBlock step.section_name (cleanPython (oracle st.calls))] = p :: t := by
            cases st.short_term_memory_blocks with
            | nil => exact ⟨_, _, rfl⟩
            | cons b bs => exact ⟨_, _, rfl⟩
          rw [hdec] at hall
          have hpop : popped ≠ [] := hall popped (by simp)
          have htail : ∀ b ∈ stail, b ≠ [] := fun b hm => hall b (by simp [hm])
          cases hsum : summarize_code_block (oracle (st.calls + 1)) popped with
          | none =>
              have := summarize_code_block_isSome (oracle (st.calls + 1)) popped hpop
              rw [hsum] at this
              cases this
          | some summary =>
              rw [genLoopGo_cons_over oracle W step rest st popped summary stail
                    herr' hov hdec hsum]
              exact ih _ htail
        · rw [genLoopGo_cons_no oracle W step rest st herr' hov]
          exact ih _ hall

lemma genLoopGo_errIdx (oracle : Nat → List Char) (W : Nat) :
    ∀ (plan : List PlanStep) (st : LoopState) (i : Nat),
      (∀ b ∈ st.short_term_memory_blocks, b ≠ []) →
      i ∈ genCallIdxs W st.calls st.short_term_memory_blocks.length plan.length →
      isErr (oracle i) = true →
      genLoopGo oracle W plan st = LoopResult.genFailure := by
  intro plan
  induction plan with
  | nil =>
      intro st i _ hi _
      simp [genCallIdxs] at hi
  | cons step rest ih =>
      intro st i hb hi herr
      by_cases h0 : isErr (oracle st.calls) = true
      · exact genLoopGo_cons_err oracle W step rest st h0
      · have h0' : isErr (oracle st.calls) = false := by
          cases hx : isErr (oracle st.calls)
          · rfl
          · exact absurd hx h0
        simp only [List.length_cons, genCallIdxs, List.mem_cons] at hi
        rcases hi with rfl | hi
        · exact absurd herr h0
        · have hall : ∀ b ∈ st.short_term_memory_blocks
              ++ [fullBlock step.section_name (cleanPython (oracle st.calls))], b ≠ [] := by
            intro b hmem
            rcases List.mem_append.mp hmem with hmem | hmem
            · exact hb b hmem
            · simp at hmem
              subst hmem
              exact fullBlock_ne_nil _ _
          by_cases hov : W < st.short_term_memory_blocks.length + 1
          · obtain ⟨popped, stail, hdec⟩ :
                ∃ p t, st.short_term_memory_blocks
                  ++ [fullBlock step.section_name (cleanPython (oracle st.calls))] = p :: t := by
              cases st.short_term_memory_blocks with
              | nil => exact ⟨_, _, rfl⟩
              | cons b bs => exact ⟨_, _, rfl⟩
            have hlen : stail.length = st.short_term_memory_blocks.length := by
              have := congrArg List.length hdec
              simp at this; omega
            rw [hdec] at hall
            have hpop : popped ≠ [] := hall popped (by simp)
            have htail : ∀ b ∈ stail, b ≠ [] := fun b hm => hall b (by simp [hm])
            cases hsum : summarize_code_block (oracle (st.calls + 1)) popped with
            | none =>
                have := summarize_code_block_isSome (oracle (st.calls + 1)) popped hpop
                rw [hsum] at this
                cases this
            | some summary =>
                rw [genLoopGo_cons_over oracle W step rest st popped summary stail
                      h0' hov hdec hsum]
                refine ih _ i htail ?_ herr
                simpa [if_pos hov, hlen] using hi
          · rw [genLoopGo_cons_no oracle W step rest st h0' hov]
            refine ih _ i hall ?_ herr
            simpa [if_neg hov, List.length_append] using hi

/-- C5: if the section-generation service call for any plan step returns a
failure, the loop aborts with `generation_failed` set, the generation stage
returns `None`, and the controller surfaces an empty `final_code` with the
failure flag — no `FinalScript` is built and no partial result is surfaced as
success. -/
theorem generation_failure_aborts_run (oracle : Nat → List Char) (W : Nat)
    (plan : List PlanStep) (i : Nat)
    (hmem : i ∈ genCallIdxs W 0 0 plan.length)
    (herr : isErr (oracle i) = true) :
    genLoopGo oracle W plan initLoopState = LoopResult.genFailure ∧
    pge_step_2_generation_loop oracle W plan = none ∧
    mainProcess oracle W (some plan) = some ⟨[], true⟩ := by
  have hg : genLoopGo oracle W plan initLoopState = LoopResult.genFailure :=
    genLoopGo_errIdx oracle W plan initLoopState i (by simp [initLoopState]) hmem herr
  refine ⟨hg, by simp [pge_step_2_generation_loop, hg], ?_⟩
  cases plan with
  | nil => simp [genCallIdxs] at hmem
  | cons p ps => simp [mainProcess, hg]

/-- C5 witness: a one-step plan whose only generation call fails. -/
theorem generation_failure_aborts_run_witness :
    (0 ∈ genCallIdxs 2 0 0 demoPlan1.length ∧ isErr (demoOracleErr 0) = true) ∧
    (genLoopGo demoOracleErr 2 demoPlan1 initLoopState = LoopResult.genFailure ∧
     pge_step_2_generation_loop demoOracleErr 2 demoPlan1 = none ∧
     mainProcess demoOracleErr 2 (some demoPlan1) = some ⟨[], true⟩) :=
  ⟨⟨by decide, by decide⟩,
   generation_failure_aborts_run demoOracleErr 2 demoPlan1 0 (by decide) (by decide)⟩

/-- C7: the summarizer never fails its caller: on every non-empty code block
it returns a string — the service text on success, and on a failed service
call the deterministic local fallback (first line of the block, a newline, the
first 250 characters of the block, and a trailing ellipsis) — and every block
the memory loop passes it is non-empty, so no run of the generation loop from
its initial state can crash in the summarizer. -/
theorem summarizer_never_fails (resp1 resp2 block : List Char)
    (oracle : Nat → List Char) (W : Nat) (plan : List PlanStep)
    (hne : block ≠ []) (h1 : isErr resp1 = true) (h2 : isErr resp2 = false) :
    summarize_code_block resp1 block
        = some ((pySplitlines block).headD [] ++ ("\n".data)
            ++ block.take 250 ++ ("...\n\n".data)) ∧
    summarize_code_block resp2 block = some resp2 ∧
    genLoopGo oracle W plan initLoopState ≠ LoopResult.crash := by
  refine ⟨?_, by simp [summarize_code_block, h2],
    genLoopGo_ne_crash oracle W plan initLoopState (by simp [initLoopState])⟩
  unfold summarize_code_block
  simp only [h1, if_true]
  cases block with
  | nil => exact absurd rfl hne
  | cons c cs =>
      cases hp : pySplitlines (c :: cs) with
      | nil => exact absurd hp (pySplitlines_ne_nil c cs)
      | cons l ls => simp [hp]

/-- C7 witness: concrete failing and succeeding summarizations of a two-line
block, and a concrete crash-free loop run. -/
theorem summarizer_never_fails_witness :
    (("a\nb".data) ≠ ([] : List Char) ∧ isErr ("Error: x".data) = true ∧
      isErr ("ok".data) = false) ∧
    (summarize_code_block ("Error: x".data) ("a\nb".data)
        = some ((pySplitlines ("a\nb".data)).headD [] ++ ("\n".data)
            ++ ("a\nb".data).take 250 ++ ("...\n\n".data)) ∧
     summarize_code_block ("ok".data) ("a\nb".data) = some ("ok".data) ∧
     genLoopGo demoOracleOk 1 demoPlan2 initLoopState ≠ LoopResult.crash) :=
  ⟨⟨by decide, by decide, by decide⟩,
   summarizer_never_fails ("Error: x".data) ("ok".data) ("a\nb".data)
     demoOracleOk 1 demoPlan2 (by decide) (by decide) (by decide)⟩

/-- C2 counterexample: a first attempt whose payload is empty, with a second
attempt available that would return `"ok"`: `make_gemini_request` returns the
terminal empty-response failure at once instead of retrying. -/
theorem empty_response_not_retried_counterexample :
    makeGeminiRequest [AttemptOutcome.payload [], AttemptOutcome.payload ("ok".data)]
        = ("Error: Empty response from API.".data) ∧
    ("Error: Empty response from API.".data) ≠ ("ok".data) := by
  exact ⟨rfl, by decide⟩

/-- C2 (amended): an empty generated-text payload is an immediately terminal
failure — `make_gemini_request` returns `"Error: Empty response from API."`
without consuming any remaining attempt — whereas a transport error with
attempts remaining is retried. -/
theorem empty_response_terminal (rest : List AttemptOutcome) (e : List Char)
    (a : AttemptOutcome) :
    makeGeminiRequest (AttemptOutcome.payload [] :: rest)
        = ("Error: Empty response from API.".data) ∧
    makeGeminiRequest (AttemptOutcome.transportError e :: a :: rest)
        = makeGeminiRequest (a :: rest) :=
  ⟨rfl, rfl⟩

/-- C3 counterexample: a response that parses as a JSON object whose single
member is named `"notplan"` — valid JSON violating the plan exchange format —
makes the planner return the empty plan `plan.get("plan", [])`, a non-failure
result. -/
theorem plan_format_violation_not_fatal_counterexample :
    pge_step_1_planning (fun _ => some demoBadJson) ("\x7b\x22notplan\x22: 1\x7d".data)
        = PlannerResult.plan (JsonVal.arr []) ∧
    PlannerResult.plan (JsonVal.arr []) ≠ PlannerResult.failure :=
  ⟨rfl, fun h => PlannerResult.noConfusion h⟩

/-- C3 (amended): a failed request or a response that does not parse as JSON
is fatal to the planning stage, but a response parsing to a JSON object is
accepted with no structural validation — the planner returns its `"plan"`
member, defaulting to an empty plan when absent — and a response parsing to a
non-object JSON value raises an uncaught `AttributeError`. -/
theorem plan_format_violation_behavior (t terr : List Char)
    (members : List (List Char × JsonVal)) (loads : List Char → Option JsonVal)
    (h1 : isErr t = false) (h2 : isErr terr = true) :
    pge_step_1_planning (fun _ => none) t = PlannerResult.failure ∧
    pge_step_1_planning (fun _ => some (JsonVal.obj members)) t
        = PlannerResult.plan ((jsonLookup members ("plan".data)).getD (JsonVal.arr [])) ∧
    pge_step_1_planning (fun _ => some (JsonVal.arr [])) t
        = PlannerResult.attributeError ∧
    pge_step_1_planning loads terr = PlannerResult.failure := by
  refine ⟨?_, ?_, ?_, ?_⟩ <;> simp [pge_step_1_planning, h1, h2]

/-- C3 witness: the amended behaviour at concrete inputs. -/
theorem plan_format_violation_behavior_witness :
    (isErr ("x".data) = false ∧ isErr ("Error: x".data) = true) ∧
    (pge_step_1_planning (fun _ => none) ("x".data) = PlannerResult.failure ∧
     pge_step_1_planning (fun _ => some (JsonVal.obj [])) ("x".data)
        = PlannerResult.plan ((jsonLookup [] ("plan".data)).getD (JsonVal.arr [])) ∧
     pge_step_1_planning (fun _ => some (JsonVal.arr [])) ("x".data)
        = PlannerResult.attributeError ∧
     pge_step_1_planning (fun _ => none) ("Error: x".data) = PlannerResult.failure) :=
  ⟨⟨by decide, by decide⟩,
   plan_format_violation_behavior ("x".data) ("Error: x".data) [] (fun _ => none)
     (by decide) (by decide)⟩

/-- C6: when the refinement-stage service call fails, the refiner returns the
unrefined script unchanged and the controller stores exactly the
pre-refinement script as a successful result. -/
theorem refiner_failure_returns_script (oracle : Nat → List Char) (W : Nat)
    (plan : List PlanStep) (script : List Char)
    (hloop : pge_step_2_generation_loop oracle W plan = some script)
    (hne : script ≠ [])
    (href : isErr (oracle (genLoopGo oracle W plan initLoopState).totalCalls) = true) :
    pge_step_3_refinement
        (oracle (genLoopGo oracle W plan initLoopState).totalCalls) script = script ∧
    mainProcess oracle W (some plan) = some ⟨script, false⟩ := by
  refine ⟨by simp [pge_step_3_refinement, href], ?_⟩
  cases hg : genLoopGo oracle W plan initLoopState with
  | genFailure => simp [pge_step_2_generation_loop, hg] at hloop
  | crash => simp [pge_step_2_generation_loop, hg] at hloop
  | ok st =>
      rw [hg] at href
      simp only [LoopResult.totalCalls] at href
      have hscript : List.intercalate ("\n".data) st.all_code_blocks = script := by
        simpa [pge_step_2_generation_loop, hg] using hloop
      cases plan with
      | nil =>
          rw [genLoopGo_nil] at hg
          cases hg
          refine absurd ?_ hne
          simpa [initLoopState, List.intercalate] using hscript.symm
      | cons p ps =>
          have hemp : script.isEmpty = false := by
            cases script with
            | nil => exact absurd rfl hne
            | cons c cs => rfl
          simp only [mainProcess, List.isEmpty_cons, hg, hscript, hemp,
            Bool.false_eq_true, if_false]
          simp [pge_step_3_refinement, href, LoopResult.totalCalls]

/-- C6 witness: a concrete two-step run whose refinement call fails; the
stored result equals the pre-refinement script. -/
theorem refiner_failure_returns_script_witness :
    (pge_step_2_generation_loop demoOracleRefineErr 2 demoPlan2 = some demoScript ∧
     demoScript ≠ [] ∧
     isErr (demoOracleRefineErr
        (genLoopGo demoOracleRefineErr 2 demoPlan2 initLoopState).totalCalls) = true) ∧
    (pge_step_3_refinement
        (demoOracleRefineErr
          (genLoopGo demoOracleRefineErr 2 demoPlan2 initLoopState).totalCalls)
        demoScript = demoScript ∧
     mainProcess demoOracleRefineErr 2 (some demoPlan2) = some ⟨demoScript, false⟩) :=
  ⟨⟨by decide, by decide, by decide⟩,
   refiner_failure_returns_script demoOracleRefineErr 2 demoPlan2 demoScript
     (by decide) (by decide) (by decide)⟩

/-- C10: failure is encoded in-band — every result of `make_gemini_request`
is either the non-empty payload of one of its attempts or a string beginning
with `"Error:"`; callers classify results exactly by that prefix, so a
genuinely successful service response whose text itself begins with `"Error:"`
is returned verbatim by the client and is then treated as a failure by the
generation loop, by the refiner (which discards the refinement) and by the
planner. -/
theorem inband_error_encoding (attempts : List AttemptOutcome) :
    (errMark <+: makeGeminiRequest attempts ∨
      ∃ t, AttemptOutcome.payload t ∈ attempts ∧ t ≠ []
        ∧ makeGeminiRequest attempts = t) ∧
    makeGeminiRequest [AttemptOutcome.payload ("Error: demo".data)]
        = ("Error: demo".data) ∧
    genLoopGo (fun _ => ("Error: demo".data)) 2 demoPlan1 initLoopState
        = LoopResult.genFailure ∧
    pge_step_3_refinement ("Error: demo".data) ("ok".data) = ("ok".data) ∧
    pge_step_1_planning (fun _ => some demoBadJson) ("Error: demo".data)
        = PlannerResult.failure := by
  refine ⟨?_, rfl, by decide, rfl, rfl⟩
  induction attempts with
  | nil => left; decide
  | cons a rest ih =>
      cases a with
      | payload t =>
          by_cases ht : t.isEmpty
          · left
            have heq : makeGeminiRequest (AttemptOutcome.payload t :: rest)
                = ("Error: Empty response from API.".data) := by
              simp [makeGeminiRequest, ht]
            rw [heq]; decide
          · right
            refine ⟨t, by simp, by simpa using ht, by simp [makeGeminiRequest, ht]⟩
      | envelopeError e =>
          left
          have heq : makeGeminiRequest (AttemptOutcome.envelopeError e :: rest)
              = ("Error: Could not parse API response.".data) := rfl
          rw [heq]; decide
      | transportError e =>
          by_cases hr : rest.isEmpty
          · left
            have heq : makeGeminiRequest (AttemptOutcome.transportError e :: rest)
                = ("Error: ".data) ++ e := by
              simp [makeGeminiRequest, hr]
            rw [heq]
            exact ⟨(" ".data) ++ e, by rw [← List.append_assoc]; rfl⟩
          · have heq : makeGeminiRequest (AttemptOutcome.transportError e :: rest)
                = makeGeminiRequest rest := by
              simp [makeGeminiRequest, hr]
            rw [heq]
            rcases ih with h | ⟨t, hmem, hne, hres⟩
            · exact Or.inl h
            · exact Or.inr ⟨t, List.mem_cons_of_mem _ hmem, hne, hres⟩

lemma pyReplaceDelAux_nil (pat : List Char) (fuel : Nat) :
    pyReplaceDelAux pat fuel [] = [] := by
  cases fuel <;> rfl

lemma pyReplaceDelAux_congr (pat : List Char) :
    ∀ (f g : Nat) (s : List Char), s.length ≤ f → s.length ≤ g →
      pyReplaceDelAux pat f s = pyReplaceDelAux pat g s := by
  intro f
  induction f with
  | zero =>
      intro g s hf _
      have hs : s = [] := by
        cases s with
        | nil => rfl
        | cons c cs => simp at hf
      subst hs
      rw [pyReplaceDelAux_nil, pyReplaceDelAux_nil]
  | succ f ihf =>
      intro g s hf hg
      cases s with
      | nil => rw [pyReplaceDelAux_nil, pyReplaceDelAux_nil]
      | cons c cs =>
          cases g with
          | zero => simp at hg
          | succ g' =>
              simp only [pyReplaceDelAux]
              by_cases hc : (pat.isPrefixOf (c :: cs) && !pat.isEmpty) = true
              · rw [if_pos hc, if_pos hc]
                apply ihf
                · simp only [List.length_drop]
                  simp only [List.length_cons] at hf
                  omega
                · simp only [List.length_drop]
                  simp only [List.length_cons] at hg
                  omega
              · rw [if_neg hc, if_neg hc]
                have := ihf g' cs (by simp at hf; omega) (by simp at hg; omega)
                rw [this]

lemma pyReplaceDel_nil (pat : List Char) : pyReplaceDel pat [] = [] := rfl

lemma pyReplaceDel_cons_pos (pat : List Char) (c : Char) (cs : List Char)
    (hne : pat ≠ []) (hp : pat.isPrefixOf (c :: cs) = true) :
    pyReplaceDel pat (c :: cs) = pyReplaceDel pat (cs.drop (pat.length - 1)) := by
  have hemp : pat.isEmpty = false := by
    cases pat with
    | nil => exact absurd rfl hne
    | cons p ps => rfl
  show pyReplaceDelAux pat (c :: cs).length (c :: cs) = _
  simp only [List.length_cons, pyReplaceDelAux, hp, hemp, Bool.not_false, Bool.and_true,
    if_true]
  apply pyReplaceDelAux_congr
  · simp only [List.length_drop]; omega
  · exact le_rfl

lemma pyReplaceDel_cons_neg (pat : List Char) (c : Char) (cs : List Char)
    (h : (pat.isPrefixOf (c :: cs) && !pat.isEmpty) = false) :
    pyReplaceDel pat (c :: cs) = c :: pyReplaceDel pat cs := by
  show pyReplaceDelAux pat (c :: cs).length (c :: cs) = _
  simp only [List.length_cons, pyReplaceDelAux, h, Bool.false_eq_true, if_false]
  rfl

lemma pyReplaceDel_eq_self (pat : List Char) :
    ∀ s : List Char, ¬ pat <:+: s → pyReplaceDel pat s = s := by
  intro s
  induction s with
  | nil => intro _; exact pyReplaceDel_nil pat
  | cons c cs ih =>
      intro h
      have hp : pat.isPrefixOf (c :: cs) = false := by
        cases hb : pat.isPrefixOf (c :: cs)
        · rfl
        · exact absurd (List.isPrefixOf_iff_prefix.mp hb).isInfix h
      rw [pyReplaceDel_cons_neg pat c cs (by rw [hp]; rfl)]
      rw [ih (fun hcs => h (List.infix_cons hcs))]

lemma fence3_eq : fence3 = [bqChar, bqChar, bqChar] := by decide

lemma isPrefixOf_false_of_not {l1 l2 : List Char} (h : ¬ l1.isPrefixOf l2 = true) :
    (l1.isPrefixOf l2 && !l1.isEmpty) = false := by
  cases hb : l1.isPrefixOf l2
  · rfl
  · exact absurd hb h

lemma single_bq_starts (cs : List Char) :
    [bqChar] <+: pyReplaceDel fence3 cs → [bqChar] <+: cs := by
  cases cs with
  | nil =>
      rw [pyReplaceDel_nil]
      intro h
      exact absurd (List.prefix_nil.mp h) (by decide)
  | cons c cs' =>
      intro h
      by_cases hp : fence3.isPrefixOf (c :: cs') = true
      · have hpre := List.isPrefixOf_iff_prefix.mp hp
        rw [fence3_eq] at hpre
        rcases List.cons_prefix_cons.mp hpre with ⟨rfl, -⟩
        exact List.cons_prefix_cons.mpr ⟨rfl, List.nil_prefix⟩
      · rw [pyReplaceDel_cons_neg fence3 c cs' (isPrefixOf_false_of_not hp)] at h
        rcases List.cons_prefix_cons.mp h with ⟨rfl, -⟩
        exact List.cons_prefix_cons.mpr ⟨rfl, List.nil_prefix⟩

lemma double_bq_starts (cs : List Char) :
    [bqChar, bqChar] <+: pyReplaceDel fence3 cs → [bqChar, bqChar] <+: cs := by
  cases cs with
  | nil =>
      rw [pyReplaceDel_nil]
      intro h
      exact absurd (List.prefix_nil.mp h) (by decide)
  | cons c cs' =>
      intro h
      by_cases hp : fence3.isPrefixOf (c :: cs') = true
      · have hpre := List.isPrefixOf_iff_prefix.mp hp
        rw [fence3_eq] at hpre
        rcases List.cons_prefix_cons.mp hpre with ⟨rfl, h2⟩
        exact List.cons_prefix_cons.mpr
          ⟨rfl, (show [bqChar] <+: [bqChar, bqChar] by decide).trans h2⟩
      · rw [pyReplaceDel_cons_neg fence3 c cs' (isPrefixOf_false_of_not hp)] at h
        rcases List.cons_prefix_cons.mp h with ⟨rfl, h2⟩
        exact List.cons_prefix_cons.mpr ⟨rfl, single_bq_starts cs' h2⟩

lemma fence3_not_occur_aux :
    ∀ (n : Nat) (s : List Char), s.length ≤ n → ¬ fence3 <:+: pyReplaceDel fence3 s := by
  intro n
  induction n with
  | zero =>
      intro s hlen
      have hs : s = [] := by
        cases s with
        | nil => rfl
        | cons c cs => simp at hlen
      subst hs
      rw [pyReplaceDel_nil]
      intro h
      exact absurd (List.infix_nil.mp h) (by decide)
  | succ n ihn =>
      intro s hlen
      cases s with
      | nil =>
          rw [pyReplaceDel_nil]
          intro h
          exact absurd (List.infix_nil.mp h) (by decide)
      | cons c cs =>
          by_cases hp : fence3.isPrefixOf (c :: cs) = true
          · rw [pyReplaceDel_cons_pos fence3 c cs (by decide) hp]
            apply ihn
            have h3 : fence3.length = 3 := by decide
            simp only [h3, List.length_drop]
            simp only [List.length_cons] at hlen
            omega
          · rw [pyReplaceDel_cons_neg fence3 c cs (isPrefixOf_false_of_not hp)]
            intro hinf
            rcases List.infix_cons_iff.mp hinf with hpre | htail
            · rw [fence3_eq] at hpre
              rcases List.cons_prefix_cons.mp hpre with ⟨rfl, h2⟩
              have hcs : [bqChar, bqChar] <+: cs := double_bq_starts cs h2
              have hfp : fence3 <+: bqChar :: cs := by
                rw [fence3_eq]
                exact List.cons_prefix_cons.mpr ⟨rfl, hcs⟩
              exact hp (List.isPrefixOf_iff_prefix.mpr hfp)
            · exact ihn cs (by simp only [List.length_cons] at hlen; omega) htail

lemma fence3_not_occur (s : List Char) : ¬ fence3 <:+: pyReplaceDel fence3 s :=
  fence3_not_occur_aux s.length s le_rfl

lemma dropWhile_dropWhile {α : Type} (p : α → Bool) (l : List α) :
    (l.dropWhile p).dropWhile p = l.dropWhile p := by
  induction l with
  | nil => rfl
  | cons c cs ih =>
      by_cases h : p c
      · simp [List.dropWhile_cons, h, ih]
      · simp [List.dropWhile_cons, h]

lemma dropWhile_head_false {α : Type} (p : α → Bool) :
    ∀ (l : List α) (c : α) (z : List α), l.dropWhile p = c :: z → p c = false := by
  intro l
  induction l with
  | nil => intro c z h; cases h
  | cons a as ih =>
      intro c z h
      by_cases hpa : p a
      · rw [List.dropWhile_cons, if_pos hpa] at h
        exact ih c z h
      · rw [List.dropWhile_cons, if_neg hpa] at h
        injection h with h1 _
        subst h1
        cases hx : p a
        · rfl
        · exact absurd hx hpa

lemma pyStrip_within (s : List Char) : pyStrip s <:+: s := by
  have h1 : s.dropWhile isPySpace <:+ s := List.dropWhile_suffix _
  have h2 : (s.dropWhile isPySpace).reverse.dropWhile isPySpace
      <:+ (s.dropWhile isPySpace).reverse := List.dropWhile_suffix _
  have h3 : ((s.dropWhile isPySpace).reverse.dropWhile isPySpace).reverse
      <+: s.dropWhile isPySpace := by
    have h4 := List.reverse_prefix.mpr h2
    simpa using h4
  exact h3.isInfix.trans h1.isInfix

lemma pyStrip_prefix_dropWhile (s : List Char) :
    pyStrip s <+: s.dropWhile isPySpace := by
  have h2 : (s.dropWhile isPySpace).reverse.dropWhile isPySpace
      <:+ (s.dropWhile isPySpace).reverse := List.dropWhile_suffix _
  have h4 := List.reverse_prefix.mpr h2
  rw [pyStrip]
  simpa using h4

lemma pyStrip_idem (s : List Char) : pyStrip (pyStrip s) = pyStrip s := by
  have hrev : (pyStrip s).reverse = (s.dropWhile isPySpace).reverse.dropWhile isPySpace := by
    rw [pyStrip, List.reverse_reverse]
  have hfront : (pyStrip s).dropWhile isPySpace = pyStrip s := by
    cases hu : pyStrip s with
    | nil => rfl
    | cons c u' =>
        rcases pyStrip_prefix_dropWhile s with ⟨w, hw⟩
        rw [hu] at hw
        have hc : isPySpace c = false :=
          dropWhile_head_false isPySpace s c (u' ++ w) hw.symm
        rw [List.dropWhile_cons, if_neg (by rw [hc]; exact Bool.false_ne_true)]
  show ((((pyStrip s).dropWhile isPySpace).reverse.dropWhile isPySpace).reverse) = pyStrip s
  rw [hfront, hrev, dropWhile_dropWhile, ← hrev, List.reverse_reverse]

lemma cleanFences_idem (pat : List Char) (hin : fence3 <:+: pat) (s : List Char) :
    cleanFences pat (cleanFences pat s) = cleanFences pat s := by
  have hnf : ¬ fence3 <:+: pyReplaceDel fence3 (pyReplaceDel pat (pyStrip s)) :=
    fence3_not_occur _
  have h1 : ¬ fence3 <:+: cleanFences pat s := by
    intro h
    exact hnf (h.trans (pyStrip_within _))
  have h2 : ¬ pat <:+: cleanFences pat s := by
    intro h
    exact h1 (hin.trans h)
  show pyStrip (pyReplaceDel fence3 (pyReplaceDel pat (pyStrip (cleanFences pat s))))
      = cleanFences pat s
  rw [show pyStrip (cleanFences pat s) = cleanFences pat s from pyStrip_idem _,
    pyReplaceDel_eq_self pat _ h2, pyReplaceDel_eq_self fence3 _ h1]
  exact pyStrip_idem _

/-- C9: code-fence stripping is idempotent: one application of the stripping
used by the generation loop and the refiner (pattern `"```python"`), or by the
planner (pattern `"```json"`), already yields a clean fixed point, so a second
application is a no-op on every input string. -/
theorem fence_stripping_idempotent (s : List Char) :
    cleanPython (cleanPython s) = cleanPython s ∧
    cleanJsonText (cleanJsonText s) = cleanJsonText s :=
  ⟨cleanFences_idem fencePy (by decide) s, cleanFences_idem fenceJs (by decide) s⟩
